import Mathlib

/-!
Shallow embedding of the vgrouper queryset service (src/app.py) and proofs
about its consistency model.

The remote broker is modelled as a status-code oracle: for each existence
query (a table name plus an optional column name) it yields the HTTP status
code the broker would answer.  The persistence store is modelled as three
row lists (maintable, variable, queryset); the queryset rows carry their
querysets_variables association rows as a list of variable ids.  Fallible
Python code is modelled with Except over a small exception type.
-/

deriving instance DecidableEq for Except

namespace VGrouper

/-- Status-code oracle for the remote broker: maps a table name and an
optional column name to the HTTP status code the broker answers for the
corresponding existence query. -/
abbrev Broker := String → Option String → Nat

/-- Python-level exceptions the embedded code can raise. -/
inductive PyError where
  | valueError (msg : String)
  | unboundLocal (nm : String)
  | attributeError (attr : String)
deriving DecidableEq, Repr

/-- Embeds exists_remotely (src/app.py lines 36-50): status 404 yields False,
status 200 yields True, and any other status raises ValueError. -/
def exists_remotely (broker : Broker) (table_name : String) (column_name : Option String) : Except PyError Bool :=
  let s := broker table_name column_name
  if s = 404 then Except.ok false
  else if s = 200 then Except.ok true
  else Except.error (PyError.valueError ("Unexpected status code from broker: " ++ toString s))

/-- Row of the variable table (class MainColumn, lines 71-84). -/
structure MainColumnRow where
  variable_id : Nat
  name : String
  table_name : String
deriving DecidableEq, Repr

/-- Embeds MainColumn.remote_validate (lines 86-92): the method returns
response.status_code == 200 with no error branch, so every status other
than 200 (404 and 500 alike) comes back as false. -/
def MainColumnRow.remote_validate (broker : Broker) (v : MainColumnRow) : Bool :=
  broker v.table_name (some v.name) == 200

/-- Row of the queryset table (class QuerySet, lines 94-106); variables holds
the querysets_variables association rows of this queryset, as variable ids. -/
structure QuerySetRow where
  name : String
  table_name : String
  vars : List Nat
deriving DecidableEq, Repr

/-- The persisted state: maintable rows (their names), variable rows, and
queryset rows together with their association lists. -/
structure Store where
  tables : List String
  columns : List MainColumnRow
  querysets : List QuerySetRow
deriving DecidableEq, Repr

/-- The self.variables relationship of a queryset: the column rows reached
from the queryset's association rows, in association order. -/
def resolveVars (store : Store) (qs : QuerySetRow) : List MainColumnRow :=
  qs.vars.filterMap (fun i => store.columns.find? (fun c => c.variable_id == i))

/-- session.delete on a QuerySet row: removes the queryset row and, with it,
its association rows; column and table rows are untouched. -/
def Store.deleteQueryset (s : Store) (qsName : String) : Store :=
  { s with querysets := s.querysets.filter (fun q => !(q.name == qsName)) }

/-- session.delete on a MainColumn row: removes the column row and every
association row pointing at it, in every queryset that references it. -/
def Store.deleteColumn (s : Store) (id : Nat) : Store :=
  { tables := s.tables
    columns := s.columns.filter (fun c => !(c.variable_id == id))
    querysets := s.querysets.map (fun q => { q with vars := q.vars.filter (fun i => !(i == id)) }) }

/-- Autoincrement supply for variable_id. -/
def Store.freshId (s : Store) : Nat :=
  (s.columns.map MainColumnRow.variable_id).foldl max 0 + 1

/-- Loop of QuerySet.remote_validate (lines 113-114): folds
valid &= exists_remotely(table, variable.name) over the variables; the
ValueError of exists_remotely propagates. -/
def validateLoop (broker : Broker) (tbl : String) : List MainColumnRow → Bool → Except PyError Bool
  | [], valid => Except.ok valid
  | v :: rest, valid =>
    match exists_remotely broker tbl (some v.name) with
    | Except.error e => Except.error e
    | Except.ok b => validateLoop broker tbl rest (valid && b)

/-- Embeds QuerySet.remote_validate (lines 108-115). -/
def remote_validate (broker : Broker) (store : Store) (qs : QuerySetRow) : Except PyError Bool :=
  match exists_remotely broker qs.table_name none with
  | Except.error e => Except.error e
  | Except.ok v => validateLoop broker qs.table_name (resolveVars store qs) v

/-- One broker existence query: a table name plus an optional column name. -/
structure AuthQuery where
  table : String
  column : Option String
deriving DecidableEq, Repr

/-- Loop of QuerySet.remote_validate instrumented with the queries issued. -/
def validateLoopTrace (broker : Broker) (tbl : String) : List MainColumnRow → Bool → List AuthQuery → List AuthQuery × Except PyError Bool
  | [], valid, acc => (acc, Except.ok valid)
  | v :: rest, valid, acc =>
    match exists_remotely broker tbl (some v.name) with
    | Except.error e => (acc ++ [⟨tbl, some v.name⟩], Except.error e)
    | Except.ok b => validateLoopTrace broker tbl rest (valid && b) (acc ++ [⟨tbl, some v.name⟩])

/-- QuerySet.remote_validate instrumented with the list of broker queries it
issues, in order; the result component equals remote_validate. -/
def remote_validate_trace (broker : Broker) (store : Store) (qs : QuerySetRow) : List AuthQuery × Except PyError Bool :=
  match exists_remotely broker qs.table_name none with
  | Except.error e => ([⟨qs.table_name, none⟩], Except.error e)
  | Except.ok v => validateLoopTrace broker qs.table_name (resolveVars store qs) v [⟨qs.table_name, none⟩]

/-- Observer for what remote_repair did: either the whole queryset row was
deleted (table absent remotely) or the per-column pass completed, having
removed the listed column names. -/
inductive RepairOutcome where
  | querysetRemoved
  | completed (removed : List String)
deriving DecidableEq, Repr

/-- Loop of QuerySet.remote_repair (lines 123-129).  The local variable sess
is assigned only inside the delete branch, yet sess.commit() runs at the end
of every iteration, so when the first iteration takes the valid branch the
commit raises UnboundLocalError; sessBound tracks whether sess is assigned.
Because a commit ends every iteration, the committed state always equals the
session state at the start of an iteration, so one store suffices. -/
def repairLoop (broker : Broker) : List MainColumnRow → Store → Bool → List String → Store × Except PyError (List String)
  | [], store, _, removed => (store, Except.ok removed)
  | v :: rest, store, sessBound, removed =>
    if MainColumnRow.remote_validate broker v then
      if sessBound then repairLoop broker rest store true removed
      else (store, Except.error (PyError.unboundLocal ("sess")))
    else
      repairLoop broker rest (Store.deleteColumn store v.variable_id) true (removed ++ [v.name])

/-- Embeds QuerySet.remote_repair (lines 117-129): if the table is absent
remotely the queryset row is deleted and committed; otherwise the per-column
loop runs over the variables snapshot. -/
def remote_repair (broker : Broker) (store : Store) (qs : QuerySetRow) : Store × Except PyError RepairOutcome :=
  match exists_remotely broker qs.table_name none with
  | Except.error e => (store, Except.error e)
  | Except.ok false => (Store.deleteQueryset store qs.name, Except.ok RepairOutcome.querysetRemoved)
  | Except.ok true =>
    let r := repairLoop broker (resolveVars store qs) store false []
    (r.fst, Except.map RepairOutcome.completed r.snd)

/-- A posted column (class ColumnPost, lines 140-144). -/
structure ColumnPost where
  name : String
deriving DecidableEq, Repr

/-- A posted queryset (class QuerySetPost, lines 146-152): its only fields
are name, columns and table. -/
structure QuerySetPost where
  name : String
  columns : List ColumnPost
  table : String
deriving DecidableEq, Repr

/-- Responses of the delete endpoint. -/
inductive DeleteResponse where
  | notFound
  | noContent
deriving DecidableEq, Repr

/-- Embeds qset_delete (lines 181-190). -/
def qset_delete (store : Store) (qsName : String) : Store × DeleteResponse :=
  match store.querysets.find? (fun q => q.name == qsName) with
  | none => (store, DeleteResponse.notFound)
  | some _ => (Store.deleteQueryset store qsName, DeleteResponse.noContent)

/-- Responses of the update endpoint. -/
inductive UpdateResponse where
  | notFound
  | invalidColumn (c : String)
  | noContent
deriving DecidableEq, Repr

/-- The final assignment and commit of qset_update (lines 216-217):
existing.variables = columns persists the collected column objects (those
not already rows become new rows) and rewrites the queryset's association
list to exactly the collected objects. -/
def Store.commitUpdate (s : Store) (qsName : String) (acc : List MainColumnRow) : Store :=
  { tables := s.tables
    columns := s.columns ++ acc.filter (fun v => !(s.columns.any (fun c => c.variable_id == v.variable_id)))
    querysets := s.querysets.map (fun q => if q.name == qsName then { q with vars := acc.map MainColumnRow.variable_id } else q) }

/-- Loop of qset_update (lines 200-214): per posted column, an authority
check (assert exists_remotely, AssertionError mapped to a 400 response,
ValueError propagating), then a lookup keyed on (table_name, name).  The
lookups run against the original store because the new MainColumn objects
are not part of the session until the final assignment. -/
def qset_update_loop (broker : Broker) (store : Store) (qsName tbl : String) : List ColumnPost → List MainColumnRow → Nat → Store × Except PyError UpdateResponse
  | [], acc, _ => (Store.commitUpdate store qsName acc, Except.ok UpdateResponse.noContent)
  | c :: rest, acc, fresh =>
    match exists_remotely broker tbl (some c.name) with
    | Except.error e => (store, Except.error e)
    | Except.ok false => (store, Except.ok (UpdateResponse.invalidColumn c.name))
    | Except.ok true =>
      match store.columns.find? (fun col => col.table_name == tbl && col.name == c.name) with
      | some colObj => qset_update_loop broker store qsName tbl rest (acc ++ [colObj]) fresh
      | none => qset_update_loop broker store qsName tbl rest (acc ++ [{ variable_id := fresh, name := c.name, table_name := tbl }]) (fresh + 1)

/-- Embeds qset_update (lines 192-218). -/
def qset_update (broker : Broker) (store : Store) (qsName : String) (body : List ColumnPost) : Store × Except PyError UpdateResponse :=
  match store.querysets.find? (fun q => q.name == qsName) with
  | none => (store, Except.ok UpdateResponse.notFound)
  | some existing => qset_update_loop broker store qsName existing.table_name body [] store.freshId

/-- Responses the create endpoint can produce on its non-raising paths. -/
inductive CreateResponse where
  | conflict
  | created (qsName : String)
deriving DecidableEq, Repr

/-- Embeds qset_create (lines 221-265).  QuerySetPost declares only the
fields name, columns and table, while line 229 reads queryset.table_name, so
after the duplicate-name check every request raises AttributeError (the
assert at line 229 only catches AssertionError); the remainder of the
endpoint (lines 230-265) is unreachable and is embedded separately below as
qset_create_write. -/
def qset_create (broker : Broker) (store : Store) (post : QuerySetPost) : Store × Except PyError CreateResponse :=
  if store.querysets.any (fun q => q.name == post.name) then (store, Except.ok CreateResponse.conflict)
  else (store, Except.error (PyError.attributeError ("table_name")))

/-- Column loop of qset_create (lines 245-255): lookup keyed on
(name, table); new columns are added to the session at once (sess.add), so
later iterations of the same request see them. -/
def qset_create_loop (tbl : String) : List ColumnPost → List MainColumnRow → List Nat → Nat → List MainColumnRow × List Nat
  | [], cols, picked, _ => (cols, picked)
  | c :: rest, cols, picked, fresh =>
    match cols.find? (fun col => col.name == c.name && col.table_name == tbl) with
    | some colObj => qset_create_loop tbl rest cols (picked ++ [colObj.variable_id]) fresh
    | none => qset_create_loop tbl rest (cols ++ [{ variable_id := fresh, name := c.name, table_name := tbl }]) (picked ++ [fresh]) (fresh + 1)

/-- Embeds lines 240-265 of qset_create, the store-writing block that the
AttributeError at line 229 makes unreachable.  Line 242 constructs the new
table row as MainTable(name=queryset.name), so when the posted table has no
local row yet, the row that gets created carries the posted QUERYSET name
rather than the posted table name, and the new queryset's table_name foreign
key matches no maintable row. -/
def qset_create_write (store : Store) (post : QuerySetPost) : Store :=
  let tbl : String := match store.tables.find? (fun t => t == post.table) with
    | some _ => post.table
    | none => post.name
  let tables' : List String := match store.tables.find? (fun t => t == post.table) with
    | some _ => store.tables
    | none => store.tables ++ [post.name]
  let cp := qset_create_loop tbl post.columns store.columns [] store.freshId
  { tables := tables'
    columns := cp.fst
    querysets := store.querysets ++ [{ name := post.name, table_name := post.table, vars := cp.snd }] }

/-! Concrete fixtures used by the closed theorems and witnesses. -/

/-- Broker that answers 200 (exists) on every query. -/
def brokerAll200 : Broker := fun _ _ => 200

/-- Broker that answers 404 (absent) on every query. -/
def brokerAll404 : Broker := fun _ _ => 404

/-- Broker answering 200 for table queries and 500 for column queries. -/
def brokerCol500 : Broker := fun _ c =>
  match c with
  | none => 200
  | some _ => 500

/-- Broker answering 200 for table queries and 404 for column queries. -/
def brokerColAbsent : Broker := fun _ c =>
  match c with
  | none => 200
  | some _ => 404

/-- A single column row named c on table t. -/
def colC : MainColumnRow := { variable_id := 1, name := "c", table_name := "t" }

/-- A queryset on table t referencing the single column. -/
def qsT : QuerySetRow := { name := "qs", table_name := "t", vars := [1] }

/-- Store holding table t, column c and the queryset qs. -/
def storeT : Store := { tables := ["t"], columns := [colC], querysets := [qsT] }

/-- The empty store. -/
def storeEmpty : Store := { tables := [], columns := [], querysets := [] }

/-- Claim C1: the claim says Repair commits once after the full per-queryset pass
and never terminates abnormally.  The code commits inside the per-column
loop through the local variable sess, which is assigned only in the delete
branch: with table t present remotely and its single registered column c
also present, the first loop iteration takes the valid branch and
sess.commit() raises UnboundLocalError, so Repair terminates abnormally. -/
theorem repair_first_valid_column_unbound_sess_crash :
    remote_repair brokerAll200 storeT qsT = (storeT, Except.error (PyError.unboundLocal ("sess"))) := by
  decide

/-- Claim C2: the claim says a create request naming an Authority-absent table (or
column) gets an InvalidReference 400 response.  QuerySetPost has no field
table_name, so line 229 raises AttributeError on every non-conflicting
create request, before any Authority query, whether the broker would report
the table absent (404 broker) or present (200 broker); no row is created in
either case, but the response is a crash, not the 400. -/
theorem create_raises_attribute_error_not_400 :
    qset_create brokerAll404 storeEmpty { name := "qs1", columns := [], table := "ghost" }
      = (storeEmpty, Except.error (PyError.attributeError ("table_name"))) ∧
    qset_create brokerAll200 storeEmpty { name := "qs1", columns := [], table := "ghost" }
      = (storeEmpty, Except.error (PyError.attributeError ("table_name"))) := by
  decide

/-- Claim C7: the claim says create get-or-creates the Table row keyed on the
posted table name T.  In the store-writing block (lines 240-265, embedded as
qset_create_write), creating queryset qs1 on not-yet-seen table t1 inserts a
maintable row named qs1, not t1, and the new queryset row's table_name t1
matches no maintable row. -/
theorem create_write_misnames_table_row :
    (qset_create_write storeEmpty { name := "qs1", columns := [], table := "t1" }).tables = ["qs1"] ∧
    ("t1") ∉ (qset_create_write storeEmpty { name := "qs1", columns := [], table := "t1" }).tables ∧
    (qset_create_write storeEmpty { name := "qs1", columns := [], table := "t1" }).querysets
      = [{ name := "qs1", table_name := "t1", vars := [] }] := by
  decide

/-- Claim C4, counterexample: the claim says that when the table is reported absent
Validate short-circuits after the single TableExists query and issues no
ColumnExists query.  With every query answered 404, validating the queryset
qs (table t, one column c) issues two queries, the second being the
ColumnExists query for c, so the trace is not the single TableExists query. -/
theorem validate_trace_on_absent_table_queries_column :
    remote_validate_trace brokerAll404 storeT qsT
      = ([{ table := "t", column := none }, { table := "t", column := some ("c") }], Except.ok false) ∧
    (remote_validate_trace brokerAll404 storeT qsT).fst ≠ [{ table := "t", column := none }] := by
  decide

/-- Claim C8, counterexample: the claim says every Authority existence query raises
on a status other than 200/404, so Repair never treats the indeterminate
case as absence.  With the broker answering 500 for the column query,
MainColumn.remote_validate coerces 500 to false (while exists_remotely would
raise ValueError on the same query), and Repair consequently deletes column
c and reports a completed pruning pass instead of failing. -/
theorem repair_deletes_column_on_status_500 :
    MainColumnRow.remote_validate brokerCol500 colC = false ∧
    exists_remotely brokerCol500 ("t") (some ("c"))
      = Except.error (PyError.valueError ("Unexpected status code from broker: 500")) ∧
    remote_repair brokerCol500 storeT qsT
      = ({ tables := ["t"], columns := [], querysets := [{ name := "qs", table_name := "t", vars := [] }] },
         Except.ok (RepairOutcome.completed (["c"]))) := by
  decide

/-! Unfolding lemmas for the embedded operations. -/

/-- exists_remotely answers ok false exactly on a 404 status. -/
theorem exists_remotely_of_404 {broker : Broker} {t : String} {c : Option String}
    (h : broker t c = 404) : exists_remotely broker t c = Except.ok false := by
  simp [exists_remotely, h]

/-- exists_remotely answers ok true exactly on a 200 status. -/
theorem exists_remotely_of_200 {broker : Broker} {t : String} {c : Option String}
    (h : broker t c = 200) : exists_remotely broker t c = Except.ok true := by
  simp [exists_remotely, h]

/-- remote_validate after a successful table query runs the column loop. -/
theorem remote_validate_ok {broker : Broker} {store : Store} {qs : QuerySetRow} {b : Bool}
    (h : exists_remotely broker qs.table_name none = Except.ok b) :
    remote_validate broker store qs = validateLoop broker qs.table_name (resolveVars store qs) b := by
  unfold remote_validate
  rw [h]

/-- remote_validate_trace after a successful table query runs the traced
column loop, the table query opening the trace. -/
theorem remote_validate_trace_ok {broker : Broker} {store : Store} {qs : QuerySetRow} {b : Bool}
    (h : exists_remotely broker qs.table_name none = Except.ok b) :
    remote_validate_trace broker store qs
      = validateLoopTrace broker qs.table_name (resolveVars store qs) b [⟨qs.table_name, none⟩] := by
  unfold remote_validate_trace
  rw [h]

/-- remote_repair on an absent table deletes the queryset row and commits. -/
theorem remote_repair_table_absent {broker : Broker} {store : Store} {qs : QuerySetRow}
    (h : exists_remotely broker qs.table_name none = Except.ok false) :
    remote_repair broker store qs
      = (Store.deleteQueryset store qs.name, Except.ok RepairOutcome.querysetRemoved) := by
  unfold remote_repair
  rw [h]

/-- remote_repair on a present table runs the per-column loop. -/
theorem remote_repair_table_present {broker : Broker} {store : Store} {qs : QuerySetRow}
    (h : exists_remotely broker qs.table_name none = Except.ok true) :
    remote_repair broker store qs
      = ((repairLoop broker (resolveVars store qs) store false []).fst,
         Except.map RepairOutcome.completed (repairLoop broker (resolveVars store qs) store false []).snd) := by
  unfold remote_repair
  rw [h]

/-- When every column query of the loop is determinate (status 200 or 404),
the validation loop folds to the logical AND of the per-column answers. -/
theorem validateLoop_det (broker : Broker) (tbl : String) (vars : List MainColumnRow) :
    ∀ b : Bool,
      (∀ v ∈ vars, broker tbl (some v.name) = 200 ∨ broker tbl (some v.name) = 404) →
      validateLoop broker tbl vars b
        = Except.ok (b && vars.all (fun v => broker tbl (some v.name) == 200)) := by
  induction vars with
  | nil => intro b _; simp [validateLoop]
  | cons v rest ih =>
    intro b h
    have hrest : ∀ w ∈ rest, broker tbl (some w.name) = 200 ∨ broker tbl (some w.name) = 404 :=
      fun w hw => h w (by simp [hw])
    rcases h v (by simp) with hv | hv
    · have hstep : validateLoop broker tbl (v :: rest) b = validateLoop broker tbl rest (b && true) := by
        rw [validateLoop, exists_remotely_of_200 hv]
      rw [hstep, ih (b && true) hrest]
      simp [hv, Bool.and_assoc]
    · have hstep : validateLoop broker tbl (v :: rest) b = validateLoop broker tbl rest (b && false) := by
        rw [validateLoop, exists_remotely_of_404 hv]
      rw [hstep, ih (b && false) hrest]
      simp [hv]

/-- Traced version of validateLoop_det: the loop also issues exactly one
column query per variable, in order. -/
theorem validateLoopTrace_det (broker : Broker) (tbl : String) (vars : List MainColumnRow) :
    ∀ (b : Bool) (acc : List AuthQuery),
      (∀ v ∈ vars, broker tbl (some v.name) = 200 ∨ broker tbl (some v.name) = 404) →
      validateLoopTrace broker tbl vars b acc
        = (acc ++ vars.map (fun v => ⟨tbl, some v.name⟩),
           Except.ok (b && vars.all (fun v => broker tbl (some v.name) == 200))) := by
  induction vars with
  | nil => intro b acc _; simp [validateLoopTrace]
  | cons v rest ih =>
    intro b acc h
    have hrest : ∀ w ∈ rest, broker tbl (some w.name) = 200 ∨ broker tbl (some w.name) = 404 :=
      fun w hw => h w (by simp [hw])
    rcases h v (by simp) with hv | hv
    · have hstep : validateLoopTrace broker tbl (v :: rest) b acc
          = validateLoopTrace broker tbl rest (b && true) (acc ++ [⟨tbl, some v.name⟩]) := by
        rw [validateLoopTrace, exists_remotely_of_200 hv]
      have hih := ih (b && true) (acc ++ [{ table := tbl, column := some v.name }]) hrest
      rw [hstep, hih]
      simp [hv, Bool.and_assoc]
    · have hstep : validateLoopTrace broker tbl (v :: rest) b acc
          = validateLoopTrace broker tbl rest (b && false) (acc ++ [⟨tbl, some v.name⟩]) := by
        rw [validateLoopTrace, exists_remotely_of_404 hv]
      have hih := ih (b && false) (acc ++ [{ table := tbl, column := some v.name }]) hrest
      rw [hstep, hih]
      simp [hv]

/-- Claim C3: for a determinate broker, Validate returns exactly the logical
AND of the table-existence answer with the per-column existence answers over
every column of the queryset; in particular it returns true iff the table
and all referenced columns exist remotely. -/
theorem validate_is_logical_and (broker : Broker) (store : Store) (qs : QuerySetRow)
    (hdt : broker qs.table_name none = 200 ∨ broker qs.table_name none = 404)
    (hdc : ∀ v ∈ resolveVars store qs,
      broker qs.table_name (some v.name) = 200 ∨ broker qs.table_name (some v.name) = 404) :
    remote_validate broker store qs
      = Except.ok ((broker qs.table_name none == 200)
          && (resolveVars store qs).all (fun v => broker qs.table_name (some v.name) == 200)) ∧
    (remote_validate broker store qs = Except.ok true ↔
      (broker qs.table_name none = 200 ∧
        ∀ v ∈ resolveVars store qs, broker qs.table_name (some v.name) = 200)) := by
  have hmain : remote_validate broker store qs
      = Except.ok ((broker qs.table_name none == 200)
          && (resolveVars store qs).all (fun v => broker qs.table_name (some v.name) == 200)) := by
    rcases hdt with h | h
    · rw [remote_validate_ok (exists_remotely_of_200 h),
        validateLoop_det broker qs.table_name (resolveVars store qs) true hdc]
      simp [h]
    · rw [remote_validate_ok (exists_remotely_of_404 h),
        validateLoop_det broker qs.table_name (resolveVars store qs) false hdc]
      simp [h]
  refine ⟨hmain, ?_⟩
  rw [hmain]
  simp [List.all_eq_true]

/-- Claim C3, witness: broker reporting table t present and every column
absent, on the queryset qs over table t with its one column c. -/
theorem validate_is_logical_and_witness :
    (brokerColAbsent qsT.table_name none = 200 ∨ brokerColAbsent qsT.table_name none = 404) ∧
    (∀ v ∈ resolveVars storeT qsT,
      brokerColAbsent qsT.table_name (some v.name) = 200 ∨
      brokerColAbsent qsT.table_name (some v.name) = 404) ∧
    (remote_validate brokerColAbsent storeT qsT
      = Except.ok ((brokerColAbsent qsT.table_name none == 200)
          && (resolveVars storeT qsT).all (fun v => brokerColAbsent qsT.table_name (some v.name) == 200)) ∧
    (remote_validate brokerColAbsent storeT qsT = Except.ok true ↔
      (brokerColAbsent qsT.table_name none = 200 ∧
        ∀ v ∈ resolveVars storeT qsT, brokerColAbsent qsT.table_name (some v.name) = 200))) :=
  ⟨by decide, by decide, validate_is_logical_and brokerColAbsent storeT qsT (by decide) (by decide)⟩

/-- Claim C4, amended: when the table is reported absent, Validate does not
short-circuit: it still issues one ColumnExists query for every column of
the queryset, in order, and (when those column queries are determinate)
returns false. -/
theorem validate_on_absent_table_queries_every_column (broker : Broker) (store : Store) (qs : QuerySetRow)
    (htab : broker qs.table_name none = 404)
    (hdc : ∀ v ∈ resolveVars store qs,
      broker qs.table_name (some v.name) = 200 ∨ broker qs.table_name (some v.name) = 404) :
    remote_validate_trace broker store qs
      = (⟨qs.table_name, none⟩
          :: (resolveVars store qs).map (fun v => ⟨qs.table_name, some v.name⟩),
         Except.ok false) := by
  rw [remote_validate_trace_ok (exists_remotely_of_404 htab),
    validateLoopTrace_det broker qs.table_name (resolveVars store qs) false [⟨qs.table_name, none⟩] hdc]
  simp

/-- Claim C4, witness for the amended statement: every query answered 404 on
the queryset qs with one column. -/
theorem validate_on_absent_table_queries_every_column_witness :
    (brokerAll404 qsT.table_name none = 404) ∧
    (∀ v ∈ resolveVars storeT qsT,
      brokerAll404 qsT.table_name (some v.name) = 200 ∨
      brokerAll404 qsT.table_name (some v.name) = 404) ∧
    remote_validate_trace brokerAll404 storeT qsT
      = (⟨qsT.table_name, none⟩
          :: (resolveVars storeT qsT).map (fun v => ⟨qsT.table_name, some v.name⟩),
         Except.ok false) :=
  ⟨rfl, by decide,
    validate_on_absent_table_queries_every_column brokerAll404 storeT qsT rfl (by decide)⟩

/-- Claim C5: when the table is reported absent, Repair deletes the queryset
row entirely (its association rows go with it, while the column and table
rows all stay), the outcome is QuerysetRemoved, and Validate (with the
column queries determinate) returns false regardless of their answers. -/
theorem repair_on_absent_table_removes_queryset (broker : Broker) (store : Store) (qs : QuerySetRow)
    (htab : broker qs.table_name none = 404)
    (hdc : ∀ v ∈ resolveVars store qs,
      broker qs.table_name (some v.name) = 200 ∨ broker qs.table_name (some v.name) = 404) :
    remote_repair broker store qs
      = (Store.deleteQueryset store qs.name, Except.ok RepairOutcome.querysetRemoved) ∧
    (Store.deleteQueryset store qs.name).columns = store.columns ∧
    (Store.deleteQueryset store qs.name).tables = store.tables ∧
    (∀ q' ∈ (Store.deleteQueryset store qs.name).querysets, q'.name ≠ qs.name) ∧
    remote_validate broker store qs = Except.ok false := by
  refine ⟨remote_repair_table_absent (exists_remotely_of_404 htab), rfl, rfl, ?_, ?_⟩
  · intro q' hq'
    have hmem := List.of_mem_filter hq'
    simpa using hmem
  · rw [remote_validate_ok (exists_remotely_of_404 htab),
      validateLoop_det broker qs.table_name (resolveVars store qs) false hdc]
    simp

/-- Claim C5, witness: every query answered 404 on the store holding table
t, column c and queryset qs. -/
theorem repair_on_absent_table_removes_queryset_witness :
    (brokerAll404 qsT.table_name none = 404) ∧
    (∀ v ∈ resolveVars storeT qsT,
      brokerAll404 qsT.table_name (some v.name) = 200 ∨
      brokerAll404 qsT.table_name (some v.name) = 404) ∧
    (remote_repair brokerAll404 storeT qsT
      = (Store.deleteQueryset storeT qsT.name, Except.ok RepairOutcome.querysetRemoved) ∧
    (Store.deleteQueryset storeT qsT.name).columns = storeT.columns ∧
    (Store.deleteQueryset storeT qsT.name).tables = storeT.tables ∧
    (∀ q' ∈ (Store.deleteQueryset storeT qsT.name).querysets, q'.name ≠ qsT.name) ∧
    remote_validate brokerAll404 storeT qsT = Except.ok false) :=
  ⟨rfl, by decide,
    repair_on_absent_table_removes_queryset brokerAll404 storeT qsT rfl (by decide)⟩

/-- Claim C10: deleting an existing queryset removes only the queryset row
and its association rows: the table rows and the column rows are exactly
those of the store before the delete. -/
theorem delete_preserves_tables_and_columns (store : Store) (qsName : String) (qs : QuerySetRow)
    (hq : store.querysets.find? (fun q => q.name == qsName) = some qs) :
    (qset_delete store qsName).snd = DeleteResponse.noContent ∧
    (qset_delete store qsName).fst.tables = store.tables ∧
    (qset_delete store qsName).fst.columns = store.columns ∧
    (qset_delete store qsName).fst.querysets
      = store.querysets.filter (fun q => !(q.name == qsName)) := by
  unfold qset_delete
  rw [hq]
  exact ⟨rfl, rfl, rfl, rfl⟩

/-- Claim C10, witness: deleting the queryset qs from the store holding
table t, column c and qs. -/
theorem delete_preserves_tables_and_columns_witness :
    (storeT.querysets.find? (fun q => q.name == ("qs")) = some qsT) ∧
    ((qset_delete storeT ("qs")).snd = DeleteResponse.noContent ∧
    (qset_delete storeT ("qs")).fst.tables = storeT.tables ∧
    (qset_delete storeT ("qs")).fst.columns = storeT.columns ∧
    (qset_delete storeT ("qs")).fst.querysets
      = storeT.querysets.filter (fun q => !(q.name == ("qs")))) :=
  ⟨by decide, delete_preserves_tables_and_columns storeT ("qs") qsT (by decide)⟩

/-! Repair-loop analysis for the pruning pass (table present remotely). -/

/-- Store effect of one iteration of the repair loop. -/
def repairStep (broker : Broker) (s : Store) (v : MainColumnRow) : Store :=
  if MainColumnRow.remote_validate broker v then s else Store.deleteColumn s v.variable_id

/-- Once sess is bound, the repair loop folds its per-iteration deletions
and collects the names of the columns found invalid, in order. -/
theorem repairLoop_bound (broker : Broker) (vars : List MainColumnRow) :
    ∀ (s : Store) (removed : List String),
      repairLoop broker vars s true removed
        = (vars.foldl (repairStep broker) s,
           Except.ok (removed
             ++ (vars.filter (fun v => !(MainColumnRow.remote_validate broker v))).map MainColumnRow.name)) := by
  induction vars with
  | nil => intro s removed; simp [repairLoop]
  | cons v rest ih =>
    intro s removed
    cases hv : MainColumnRow.remote_validate broker v with
    | true =>
      have hstep : repairLoop broker (v :: rest) s true removed
          = repairLoop broker rest s true removed := by
        rw [repairLoop, hv]
        simp
      rw [hstep, ih s removed]
      simp [List.foldl_cons, List.filter_cons, repairStep, hv]
    | false =>
      have hstep : repairLoop broker (v :: rest) s true removed
          = repairLoop broker rest (Store.deleteColumn s v.variable_id) true (removed ++ [v.name]) := by
        rw [repairLoop, hv]
        simp
      rw [hstep, ih (Store.deleteColumn s v.variable_id) (removed ++ [v.name])]
      simp [List.foldl_cons, List.filter_cons, repairStep, hv, List.append_assoc]

/-- A variable id that left no trace in the store: no column row carries it
and no queryset's association rows mention it. -/
def IdAbsent (d : Nat) (s : Store) : Prop :=
  (∀ c ∈ s.columns, c.variable_id ≠ d) ∧ (∀ q ∈ s.querysets, d ∉ q.vars)

/-- Deleting a column erases its id from the whole store. -/
theorem idAbsent_deleteColumn (d : Nat) (s : Store) : IdAbsent d (Store.deleteColumn s d) := by
  constructor
  · intro c hc
    have hp := List.of_mem_filter hc
    simpa using hp
  · intro q hq
    simp only [Store.deleteColumn, List.mem_map] at hq
    obtain ⟨q0, _, rfl⟩ := hq
    intro hd
    have hp := List.of_mem_filter hd
    simp at hp

/-- Deleting some other column keeps an absent id absent. -/
theorem idAbsent_preserve_deleteColumn (d e : Nat) (s : Store) (h : IdAbsent d s) :
    IdAbsent d (Store.deleteColumn s e) := by
  constructor
  · intro c hc
    exact h.1 c (List.mem_of_mem_filter hc)
  · intro q hq
    simp only [Store.deleteColumn, List.mem_map] at hq
    obtain ⟨q0, hq0, rfl⟩ := hq
    intro hd
    exact h.2 q0 hq0 (List.mem_of_mem_filter hd)

/-- A repair-loop iteration keeps an absent id absent. -/
theorem idAbsent_step (broker : Broker) (d : Nat) (s : Store) (v : MainColumnRow)
    (h : IdAbsent d s) : IdAbsent d (repairStep broker s v) := by
  unfold repairStep
  split
  · exact h
  · exact idAbsent_preserve_deleteColumn d v.variable_id s h

/-- The whole repair fold keeps an absent id absent. -/
theorem idAbsent_foldl (broker : Broker) (d : Nat) :
    ∀ (l : List MainColumnRow) (s : Store),
      IdAbsent d s → IdAbsent d (l.foldl (repairStep broker) s)
  | [], _, h => h
  | v :: rest, s, h => by
    rw [List.foldl_cons]
    exact idAbsent_foldl broker d rest (repairStep broker s v) (idAbsent_step broker d s v h)

/-- Every column of the snapshot whose check failed ends up absent from the
store produced by the repair fold. -/
theorem foldl_deletes_invalid (broker : Broker) (l : List MainColumnRow) :
    ∀ (s : Store) (v : MainColumnRow),
      v ∈ l → MainColumnRow.remote_validate broker v = false →
      IdAbsent v.variable_id (l.foldl (repairStep broker) s) := by
  induction l with
  | nil => intro s v hv _; simp at hv
  | cons w rest ih =>
    intro s v hv hinvalid
    rw [List.foldl_cons]
    rcases List.mem_cons.mp hv with rfl | hv'
    · have hstep : repairStep broker s v = Store.deleteColumn s v.variable_id := by
        unfold repairStep
        rw [hinvalid]
        simp
      rw [hstep]
      exact idAbsent_foldl broker v.variable_id rest (Store.deleteColumn s v.variable_id)
        (idAbsent_deleteColumn v.variable_id s)
    · exact ih (repairStep broker s w) v hv' hinvalid

/-- When the table query answers 200 and repair terminates normally, the
final store is the fold of the per-column steps over the snapshot and the
outcome lists exactly the names of the snapshot columns whose check failed. -/
theorem remote_repair_present_ok (broker : Broker) (store store' : Store) (qs : QuerySetRow)
    (out : RepairOutcome)
    (htab : broker qs.table_name none = 200)
    (hok : remote_repair broker store qs = (store', Except.ok out)) :
    store' = (resolveVars store qs).foldl (repairStep broker) store ∧
    out = RepairOutcome.completed
      (((resolveVars store qs).filter (fun v => !(MainColumnRow.remote_validate broker v))).map MainColumnRow.name) := by
  rw [remote_repair_table_present (exists_remotely_of_200 htab)] at hok
  cases hsnap : resolveVars store qs with
  | nil =>
    rw [hsnap] at hok
    simp [repairLoop, Except.map] at hok
    simp [hsnap, List.foldl_nil, ← hok.1, ← hok.2]
  | cons v rest =>
    rw [hsnap] at hok
    cases hv : MainColumnRow.remote_validate broker v with
    | true =>
      have hloop : repairLoop broker (v :: rest) store false []
          = (store, Except.error (PyError.unboundLocal ("sess"))) := by
        rw [repairLoop, hv]
        simp
      rw [hloop] at hok
      simp [Except.map] at hok
    | false =>
      have h1 : repairLoop broker (v :: rest) store false []
          = repairLoop broker rest (Store.deleteColumn store v.variable_id) true ([] ++ [v.name]) := by
        rw [repairLoop, hv]
        simp
      have hloop : repairLoop broker (v :: rest) store false []
          = ((v :: rest).foldl (repairStep broker) store,
             Except.ok (((v :: rest).filter (fun w => !(MainColumnRow.remote_validate broker w))).map MainColumnRow.name)) := by
        rw [h1, repairLoop_bound broker rest (Store.deleteColumn store v.variable_id) ([] ++ [v.name])]
        simp [List.foldl_cons, List.filter_cons, repairStep, hv]
      rw [hloop] at hok
      simp [Except.map, Prod.ext_iff] at hok
      refine ⟨?_, hok.2.symm⟩
      rw [List.foldl_cons]
      exact hok.1.symm

/-- Claim C6: for a queryset whose table exists remotely, whenever Repair
completes, every snapshot column still present in the store answered 200 at
repair time, every name in the reported removal list answered 404, and every
snapshot column that answered 404 is deleted from the store itself, its id
gone from the association rows of every queryset, not just the repaired one. -/
theorem repair_prunes_exactly_absent_columns (broker : Broker) (store store' : Store)
    (qs : QuerySetRow) (out : RepairOutcome)
    (htab : broker qs.table_name none = 200)
    (hinv : ∀ v ∈ resolveVars store qs, v.table_name = qs.table_name)
    (hdc : ∀ v ∈ resolveVars store qs,
      broker qs.table_name (some v.name) = 200 ∨ broker qs.table_name (some v.name) = 404)
    (hok : remote_repair broker store qs = (store', Except.ok out)) :
    (∀ v ∈ resolveVars store qs, v ∈ store'.columns → broker qs.table_name (some v.name) = 200) ∧
    (∀ removed, out = RepairOutcome.completed removed →
      ∀ n ∈ removed, broker qs.table_name (some n) = 404) ∧
    (∀ v ∈ resolveVars store qs, broker qs.table_name (some v.name) = 404 →
      v ∉ store'.columns ∧ ∀ q' ∈ store'.querysets, v.variable_id ∉ q'.vars) := by
  obtain ⟨hs, ho⟩ := remote_repair_present_ok broker store store' qs out htab hok
  subst hs
  subst ho
  have hvalid_iff : ∀ v ∈ resolveVars store qs,
      (MainColumnRow.remote_validate broker v = false ↔ broker qs.table_name (some v.name) = 404) := by
    intro v hv
    unfold MainColumnRow.remote_validate
    rw [hinv v hv]
    rcases hdc v hv with h | h <;> simp [h]
  have habsent : ∀ v ∈ resolveVars store qs, broker qs.table_name (some v.name) = 404 →
      IdAbsent v.variable_id ((resolveVars store qs).foldl (repairStep broker) store) := by
    intro v hv h404
    exact foldl_deletes_invalid broker (resolveVars store qs) store v hv ((hvalid_iff v hv).mpr h404)
  refine ⟨?_, ?_, ?_⟩
  · intro v hv hc
    rcases hdc v hv with h | h
    · exact h
    · exact absurd rfl ((habsent v hv h).1 v hc)
  · intro removed hrm n hn
    have hrm' : ((resolveVars store qs).filter (fun v => !(MainColumnRow.remote_validate broker v))).map MainColumnRow.name = removed := by
      injection hrm
    rw [← hrm'] at hn
    obtain ⟨v, hvf, rfl⟩ := List.mem_map.mp hn
    have hvmem := List.mem_of_mem_filter hvf
    have hvfail : MainColumnRow.remote_validate broker v = false := by
      have hp := List.of_mem_filter hvf
      simpa using hp
    exact (hvalid_iff v hvmem).mp hvfail
  · intro v hv h404
    have habs := habsent v hv h404
    refine ⟨?_, ?_⟩
    · intro hc
      exact absurd rfl (habs.1 v hc)
    · intro q' hq'
      exact habs.2 q' hq'

/-- Broker for the repair witness: table queries answer 200, the column a
answers 404, every other column answers 200. -/
def brokerW6 : Broker := fun _ c =>
  match c with
  | none => 200
  | some nm => if nm = ("a") then 404 else 200

/-- Column a with id 1 on table t. -/
def colA6 : MainColumnRow := { variable_id := 1, name := "a", table_name := "t" }

/-- Column b with id 2 on table t. -/
def colB6 : MainColumnRow := { variable_id := 2, name := "b", table_name := "t" }

/-- Queryset over table t referencing columns a and b. -/
def qs6 : QuerySetRow := { name := "qs", table_name := "t", vars := [1, 2] }

/-- Store holding table t, columns a and b, and the queryset. -/
def store6 : Store := { tables := ["t"], columns := [colA6, colB6], querysets := [qs6] }

/-- The store after repairing qs6 against brokerW6: a pruned everywhere. -/
def store6' : Store :=
  { tables := ["t"], columns := [colB6]
    querysets := [{ name := "qs", table_name := "t", vars := [2] }] }

/-- Claim C6, witness: repairing the queryset over present table t whose
column a is remotely absent and column b present. -/
theorem repair_prunes_exactly_absent_columns_witness :
    (brokerW6 qs6.table_name none = 200) ∧
    (∀ v ∈ resolveVars store6 qs6, v.table_name = qs6.table_name) ∧
    (∀ v ∈ resolveVars store6 qs6,
      brokerW6 qs6.table_name (some v.name) = 200 ∨ brokerW6 qs6.table_name (some v.name) = 404) ∧
    (remote_repair brokerW6 store6 qs6 = (store6', Except.ok (RepairOutcome.completed (["a"])))) ∧
    ((∀ v ∈ resolveVars store6 qs6, v ∈ store6'.columns →
        brokerW6 qs6.table_name (some v.name) = 200) ∧
     (∀ removed, RepairOutcome.completed (["a"]) = RepairOutcome.completed removed →
        ∀ n ∈ removed, brokerW6 qs6.table_name (some n) = 404) ∧
     (∀ v ∈ resolveVars store6 qs6, brokerW6 qs6.table_name (some v.name) = 404 →
        v ∉ store6'.columns ∧ ∀ q' ∈ store6'.querysets, v.variable_id ∉ q'.vars)) :=
  ⟨by decide, by decide, by decide, by decide,
    repair_prunes_exactly_absent_columns brokerW6 store6 store6' qs6
      (RepairOutcome.completed (["a"])) (by decide) (by decide) (by decide) (by decide)⟩

/-! Analysis of the update endpoint (full replacement of the column set). -/

/-- In a list of column rows with pairwise distinct ids, searching by the id
of a member returns exactly that member. -/
theorem find?_by_id_of_nodup (l : List MainColumnRow) :
    (l.map MainColumnRow.variable_id).Nodup →
    ∀ v ∈ l, l.find? (fun c => c.variable_id == v.variable_id) = some v := by
  induction l with
  | nil => intro _ v hv; simp at hv
  | cons w rest ih =>
    intro hnd v hv
    rw [List.map_cons, List.nodup_cons] at hnd
    rcases List.mem_cons.mp hv with rfl | hv'
    · rw [List.find?_cons_of_pos]
      simp
    · have hmem : v.variable_id ∈ rest.map MainColumnRow.variable_id :=
        List.mem_map_of_mem MainColumnRow.variable_id hv'
      have hne : w.variable_id ≠ v.variable_id := fun he => hnd.1 (he ▸ hmem)
      rw [List.find?_cons_of_neg]
      · exact ih hnd.2 v hv'
      · simp [hne]

/-- Resolving the ids of rows through a column list that answers each of
those ids with the row itself reproduces the row list. -/
theorem filterMap_find?_eq_self (cols : List MainColumnRow) :
    ∀ (B : List MainColumnRow),
      (∀ v ∈ B, cols.find? (fun c => c.variable_id == v.variable_id) = some v) →
      (B.map MainColumnRow.variable_id).filterMap
        (fun i => cols.find? (fun c => c.variable_id == i)) = B := by
  intro B
  induction B with
  | nil => intro _; simp
  | cons v rest ih =>
    intro h
    have hv := h v (List.mem_cons_self v rest)
    rw [List.map_cons, List.filterMap_cons, hv,
      ih (fun w hw => h w (List.mem_cons_of_mem v hw))]

/-- The seed of a max fold bounds the fold from below. -/
theorem le_foldl_max (l : List Nat) : ∀ a : Nat, a ≤ l.foldl max a := by
  induction l with
  | nil => intro a; simp
  | cons x t ih =>
    intro a
    rw [List.foldl_cons]
    exact le_trans (le_max_left a x) (ih (max a x))

/-- Every member of the list bounds the max fold from below. -/
theorem mem_le_foldl_max (l : List Nat) : ∀ (a x : Nat), x ∈ l → x ≤ l.foldl max a := by
  induction l with
  | nil => intro a x hx; simp at hx
  | cons y t ih =>
    intro a x hx
    rw [List.foldl_cons]
    rcases List.mem_cons.mp hx with rfl | hx'
    · exact le_trans (le_max_right a x) (le_foldl_max t (max a x))
    · exact ih (max a y) x hx'

/-- The autoincrement supply is strictly above every existing column id. -/
theorem freshId_gt (s : Store) : ∀ c ∈ s.columns, c.variable_id < s.freshId := by
  intro c hc
  unfold Store.freshId
  have hle : c.variable_id ≤ (s.columns.map MainColumnRow.variable_id).foldl max 0 :=
    mem_le_foldl_max (s.columns.map MainColumnRow.variable_id) 0 c.variable_id
      (List.mem_map_of_mem MainColumnRow.variable_id hc)
  omega

/-- Closed form of the update loop's column collection: per posted column,
the row found by (table_name, name) in the original store, or a fresh row. -/
def buildColumns (store : Store) (tbl : String) : List ColumnPost → Nat → List MainColumnRow
  | [], _ => []
  | c :: rest, fresh =>
    match store.columns.find? (fun col => col.table_name == tbl && col.name == c.name) with
    | some colObj => colObj :: buildColumns store tbl rest fresh
    | none => { variable_id := fresh, name := c.name, table_name := tbl } :: buildColumns store tbl rest (fresh + 1)

/-- When every posted column passes the authority check, the update loop
commits the collected columns and answers 204. -/
theorem qset_update_loop_ok (broker : Broker) (store : Store) (qsName tbl : String)
    (body : List ColumnPost)
    (hall : ∀ c ∈ body, broker tbl (some c.name) = 200) :
    ∀ (acc : List MainColumnRow) (fresh : Nat),
      qset_update_loop broker store qsName tbl body acc fresh
        = (Store.commitUpdate store qsName (acc ++ buildColumns store tbl body fresh),
           Except.ok UpdateResponse.noContent) := by
  induction body with
  | nil => intro acc fresh; simp [qset_update_loop, buildColumns]
  | cons c rest ih =>
    intro acc fresh
    have hc := hall c (by simp)
    have hrest : ∀ d ∈ rest, broker tbl (some d.name) = 200 := fun d hd => hall d (by simp [hd])
    cases hfind : store.columns.find? (fun col => col.table_name == tbl && col.name == c.name) with
    | some colObj =>
      have hstep : qset_update_loop broker store qsName tbl (c :: rest) acc fresh
          = qset_update_loop broker store qsName tbl rest (acc ++ [colObj]) fresh := by
        rw [qset_update_loop, exists_remotely_of_200 hc, hfind]
      rw [hstep, ih hrest (acc ++ [colObj]) fresh, buildColumns, hfind]
      simp [List.append_assoc]
    | none =>
      have hstep : qset_update_loop broker store qsName tbl (c :: rest) acc fresh
          = qset_update_loop broker store qsName tbl rest
              (acc ++ [{ variable_id := fresh, name := c.name, table_name := tbl }]) (fresh + 1) := by
        rw [qset_update_loop, exists_remotely_of_200 hc, hfind]
      have hih := ih hrest
        (acc ++ [{ variable_id := fresh, name := c.name, table_name := tbl }]) (fresh + 1)
      rw [hstep, hih, buildColumns, hfind]
      simp [List.append_assoc]

/-- The names of the collected columns are exactly the posted names. -/
theorem buildColumns_names (store : Store) (tbl : String) :
    ∀ (body : List ColumnPost) (fresh : Nat),
      (buildColumns store tbl body fresh).map MainColumnRow.name = body.map ColumnPost.name := by
  intro body
  induction body with
  | nil => intro fresh; simp [buildColumns]
  | cons c rest ih =>
    intro fresh
    cases hfind : store.columns.find? (fun col => col.table_name == tbl && col.name == c.name) with
    | some colObj =>
      have hp := List.find?_some hfind
      simp only [Bool.and_eq_true, beq_iff_eq] at hp
      rw [buildColumns, hfind]
      simp [hp.2, ih fresh]
    | none =>
      rw [buildColumns, hfind]
      simp [ih (fresh + 1)]

/-- Structure of the collected columns: the genuinely new rows (those whose
id no existing row carries) have pairwise distinct ids at or above the fresh
seed, and every collected row is either an existing row or a new one. -/
theorem buildColumns_split (store : Store) (tbl : String) :
    ∀ (body : List ColumnPost) (fresh : Nat),
      (∀ c ∈ store.columns, c.variable_id < fresh) →
      (((buildColumns store tbl body fresh).filter
          (fun v => !(store.columns.any (fun c => c.variable_id == v.variable_id)))).map
            MainColumnRow.variable_id).Nodup ∧
      (∀ v ∈ (buildColumns store tbl body fresh).filter
          (fun v => !(store.columns.any (fun c => c.variable_id == v.variable_id))),
        fresh ≤ v.variable_id) ∧
      (∀ v ∈ buildColumns store tbl body fresh,
        v ∈ store.columns ∨
        v ∈ (buildColumns store tbl body fresh).filter
          (fun v => !(store.columns.any (fun c => c.variable_id == v.variable_id)))) := by
  intro body
  induction body with
  | nil => intro fresh _; refine ⟨by simp [buildColumns], by simp [buildColumns], by simp [buildColumns]⟩
  | cons c rest ih =>
    intro fresh hfr
    cases hfind : store.columns.find? (fun col => col.table_name == tbl && col.name == c.name) with
    | some colObj =>
      have hmem : colObj ∈ store.columns := List.mem_of_find?_eq_some hfind
      have hany : store.columns.any (fun cc => cc.variable_id == colObj.variable_id) = true := by
        rw [List.any_eq_true]
        exact ⟨colObj, hmem, by simp⟩
      have hbuild : buildColumns store tbl (c :: rest) fresh
          = colObj :: buildColumns store tbl rest fresh := by
        rw [buildColumns, hfind]
      obtain ⟨ih1, ih2, ih3⟩ := ih fresh hfr
      have hfilter : (buildColumns store tbl (c :: rest) fresh).filter
          (fun v => !(store.columns.any (fun cc => cc.variable_id == v.variable_id)))
          = (buildColumns store tbl rest fresh).filter
            (fun v => !(store.columns.any (fun cc => cc.variable_id == v.variable_id))) := by
        rw [hbuild, List.filter_cons]
        simp [hany]
      rw [hfilter, hbuild]
      refine ⟨ih1, ih2, ?_⟩
      intro v hv
      rcases List.mem_cons.mp hv with rfl | hv'
      · exact Or.inl hmem
      · exact ih3 v hv'
    | none =>
      have hfr' : ∀ d ∈ store.columns, d.variable_id < fresh + 1 := by
        intro d hd
        have := hfr d hd
        omega
      obtain ⟨ih1, ih2, ih3⟩ := ih (fresh + 1) hfr'
      have hany : store.columns.any (fun cc => cc.variable_id == fresh) = false := by
        rw [List.any_eq_false]
        intro d hd
        have hlt := hfr d hd
        simp only [beq_iff_eq]
        omega
      have hbuild : buildColumns store tbl (c :: rest) fresh
          = { variable_id := fresh, name := c.name, table_name := tbl }
              :: buildColumns store tbl rest (fresh + 1) := by
        rw [buildColumns, hfind]
      have hfilter : (buildColumns store tbl (c :: rest) fresh).filter
          (fun v => !(store.columns.any (fun cc => cc.variable_id == v.variable_id)))
          = { variable_id := fresh, name := c.name, table_name := tbl }
              :: (buildColumns store tbl rest (fresh + 1)).filter
                (fun v => !(store.columns.any (fun cc => cc.variable_id == v.variable_id))) := by
        rw [hbuild, List.filter_cons]
        simp [hany]
      rw [hfilter, hbuild]
      refine ⟨?_, ?_, ?_⟩
      · rw [List.map_cons, List.nodup_cons]
        refine ⟨?_, ih1⟩
        intro hin
        obtain ⟨w, hw, he⟩ := List.mem_map.mp hin
        have hge := ih2 w hw
        simp at he
        omega
      · intro v hv
        rcases List.mem_cons.mp hv with rfl | hv'
        · exact le_refl fresh
        · have hge := ih2 v hv'
          omega
      · intro v hv
        rcases List.mem_cons.mp hv with rfl | hv'
        · exact Or.inr (List.mem_cons_self _ _)
        · rcases ih3 v hv' with h | h
          · exact Or.inl h
          · exact Or.inr (List.mem_cons_of_mem _ h)

/-- After the commit of an update, looking any collected row up by its id in
the committed column list returns exactly that row. -/
theorem commitUpdate_columns_find (store : Store) (tbl : String) (body : List ColumnPost)
    (hnd : (store.columns.map MainColumnRow.variable_id).Nodup) :
    ∀ v ∈ buildColumns store tbl body store.freshId,
      (store.columns ++ (buildColumns store tbl body store.freshId).filter
          (fun w => !(store.columns.any (fun c => c.variable_id == w.variable_id)))).find?
        (fun c => c.variable_id == v.variable_id) = some v := by
  obtain ⟨hndNew, hgeNew, hsplit⟩ := buildColumns_split store tbl body store.freshId (freshId_gt store)
  have hndAll : ((store.columns ++ (buildColumns store tbl body store.freshId).filter
      (fun w => !(store.columns.any (fun c => c.variable_id == w.variable_id)))).map
        MainColumnRow.variable_id).Nodup := by
    rw [List.map_append]
    refine List.Nodup.append hnd hndNew ?_
    intro i hi1 hi2
    obtain ⟨d, hd, he1⟩ := List.mem_map.mp hi1
    obtain ⟨w, hw, he2⟩ := List.mem_map.mp hi2
    have h1 := freshId_gt store d hd
    have h2 := hgeNew w hw
    omega
  intro v hv
  have hmem : v ∈ store.columns ++ (buildColumns store tbl body store.freshId).filter
      (fun w => !(store.columns.any (fun c => c.variable_id == w.variable_id))) := by
    rcases hsplit v hv with h | h
    · exact List.mem_append_left _ h
    · exact List.mem_append_right _ h
  exact find?_by_id_of_nodup _ hndAll v hmem

/-- Rewriting the association list of the named queryset commutes with the
by-name search over the queryset rows. -/
theorem find?_map_update (qsName : String) (ids : List Nat) :
    ∀ (l : List QuerySetRow) (qs : QuerySetRow),
      l.find? (fun q => q.name == qsName) = some qs →
      (l.map (fun q => if q.name == qsName then { q with vars := ids } else q)).find?
        (fun q => q.name == qsName) = some { qs with vars := ids } := by
  intro l
  induction l with
  | nil => intro qs h; simp at h
  | cons q0 t ih =>
    intro qs h
    cases hq0 : (q0.name == qsName) with
    | true =>
      simp only [List.find?_cons, hq0, Option.some.injEq] at h
      subst h
      rw [List.map_cons, if_pos hq0]
      rw [List.find?_cons_of_pos]
      exact hq0
    | false =>
      simp only [List.find?_cons, hq0] at h
      rw [List.map_cons, if_neg (by simp [hq0])]
      rw [List.find?_cons_of_neg]
      · exact ih qs h
      · simp [hq0]

/-- Claim C9: updating an existing queryset with a column list that entirely
passes the authority check against the queryset's table replaces the full
column set: the response is 204 and the updated queryset resolves to exactly
the requested column names, old associations outside the new set dropped. -/
theorem update_replaces_column_set (broker : Broker) (store : Store) (qsName : String)
    (body : List ColumnPost) (qs : QuerySetRow)
    (hq : store.querysets.find? (fun q => q.name == qsName) = some qs)
    (hnd : (store.columns.map MainColumnRow.variable_id).Nodup)
    (hall : ∀ c ∈ body, broker qs.table_name (some c.name) = 200) :
    (qset_update broker store qsName body).snd = Except.ok UpdateResponse.noContent ∧
    ∃ qs', (qset_update broker store qsName body).fst.querysets.find?
        (fun q => q.name == qsName) = some qs' ∧
      qs'.name = qs.name ∧ qs'.table_name = qs.table_name ∧
      (resolveVars (qset_update broker store qsName body).fst qs').map MainColumnRow.name
        = body.map ColumnPost.name := by
  have hunfold : qset_update broker store qsName body
      = qset_update_loop broker store qsName qs.table_name body [] store.freshId := by
    unfold qset_update
    rw [hq]
  rw [hunfold, qset_update_loop_ok broker store qsName qs.table_name body hall [] store.freshId]
  simp only [List.nil_append]
  constructor
  · trivial
  · refine ⟨{ qs with vars := (buildColumns store qs.table_name body store.freshId).map MainColumnRow.variable_id }, ?_, rfl, rfl, ?_⟩
    · exact find?_map_update qsName
        ((buildColumns store qs.table_name body store.freshId).map MainColumnRow.variable_id)
        store.querysets qs hq
    · show List.map MainColumnRow.name
          (List.filterMap
            (fun i => (store.columns ++ (buildColumns store qs.table_name body store.freshId).filter
                (fun w => !(store.columns.any (fun c => c.variable_id == w.variable_id)))).find?
              (fun c => c.variable_id == i))
            ((buildColumns store qs.table_name body store.freshId).map MainColumnRow.variable_id))
          = body.map ColumnPost.name
      rw [filterMap_find?_eq_self _ _ (commitUpdate_columns_find store qs.table_name body hnd)]
      exact buildColumns_names store qs.table_name body store.freshId

/-- Posted update body requesting columns b and c. -/
def bodyU : List ColumnPost := [{ name := "b" }, { name := "c" }]

/-- Claim C9, witness: updating the queryset holding columns a and b with
the requested set b and c against an all-200 broker; the final column set is
exactly b, c. -/
theorem update_replaces_column_set_witness :
    (store6.querysets.find? (fun q => q.name == ("qs")) = some qs6) ∧
    ((store6.columns.map MainColumnRow.variable_id).Nodup) ∧
    (∀ c ∈ bodyU, brokerAll200 qs6.table_name (some c.name) = 200) ∧
    ((qset_update brokerAll200 store6 ("qs") bodyU).snd = Except.ok UpdateResponse.noContent ∧
     ∃ qs', (qset_update brokerAll200 store6 ("qs") bodyU).fst.querysets.find?
         (fun q => q.name == ("qs")) = some qs' ∧
       qs'.name = qs6.name ∧ qs'.table_name = qs6.table_name ∧
       (resolveVars (qset_update brokerAll200 store6 ("qs") bodyU).fst qs').map MainColumnRow.name
         = bodyU.map ColumnPost.name) :=
  ⟨by decide, by decide, by decide,
    update_replaces_column_set brokerAll200 store6 ("qs") bodyU qs6 (by decide) (by decide) (by decide)⟩

/-- Claim C8, amended: the exists_remotely client answers ok false exactly on
status 404 and ok true exactly on status 200 and raises ValueError on every
other status, so Validate propagates the indeterminate case as an error; but
the per-column check Repair relies on, MainColumn.remote_validate, answers
false on every status other than 200, coercing the indeterminate case to
absence instead of raising. -/
theorem exists_remotely_status_characterization (broker : Broker) (t : String) (c : Option String) (v : MainColumnRow) :
    (exists_remotely broker t c = Except.ok false ↔ broker t c = 404) ∧
    (exists_remotely broker t c = Except.ok true ↔ broker t c = 200) ∧
    ((∃ m, exists_remotely broker t c = Except.error (PyError.valueError m)) ↔
      (broker t c ≠ 404 ∧ broker t c ≠ 200)) ∧
    (MainColumnRow.remote_validate broker v = false ↔ broker v.table_name (some v.name) ≠ 200) := by
  refine ⟨?_, ?_, ?_, ?_⟩
  · unfold exists_remotely
    by_cases h4 : broker t c = 404
    · simp [h4]
    · by_cases h2 : broker t c = 200 <;> simp [h4, h2]
  · unfold exists_remotely
    by_cases h4 : broker t c = 404
    · simp [h4]
    · by_cases h2 : broker t c = 200 <;> simp [h4, h2]
  · unfold exists_remotely
    by_cases h4 : broker t c = 404
    · simp [h4]
    · by_cases h2 : broker t c = 200 <;> simp [h4, h2]
  · unfold MainColumnRow.remote_validate
    simp

end VGrouper
